import Mathlib

/-
Verification development for the Albatross chain-management core
(src/blockchain-albatross/src/blockchain.rs).

The data model and the operations are shallowly embedded as executable Lean
definitions, translated from the Rust source.  External collaborators that
live outside the embedded file (the accounts tree, the chain store's
key-value backend, BLS/Schnorr/VRF cryptography, the staking contract, the
block-reward schedule, the alias-method sampler) are modelled as function
parameters carried in context structures, exactly at the call boundaries the
source uses.  Rust panics (assert!, unwrap, expect, unreachable!) are
modelled by returning `none`; fallible Rust functions returning
`Result<T, PushError>` are modelled with `Except PushError T`.
-/

set_option autoImplicit false

namespace Albatross

/-! ### Policy constants

The `policy` crate is not part of the analysed sources.  The constants below
are modelled from the spec, which fixes SLOTS = 512, BATCH_LENGTH = 32,
EPOCH_LENGTH = 128, TIMESTAMP_MAX_DRIFT = 10s, W = 120, and "a block at
height h is a macro block iff h mod BATCH_LENGTH == 0; an election block iff
h mod EPOCH_LENGTH == 0; epoch index = h / EPOCH_LENGTH (ceiling)". -/

/-- Modelled from the spec: the total slot count (SLOTS = 512). -/
def SLOTS : Nat := 512

/-- Modelled from the spec: the two-thirds quorum threshold over slots. -/
def TWO_THIRD_SLOTS : Nat := 342

/-- Modelled from the spec: micro blocks per batch (BATCH_LENGTH = 32). -/
def BATCH_LENGTH : Nat := 32

/-- Modelled from the spec: blocks per epoch (EPOCH_LENGTH = 128). -/
def EPOCH_LENGTH : Nat := 128

/-- Modelled from the spec: maximum allowed timestamp drift into the future. -/
def TIMESTAMP_MAX_DRIFT : Nat := 10

/-- Modelled from the spec: the transaction replay-protection window W. -/
def TRANSACTION_VALIDITY_WINDOW : Nat := 120

/-- Modelled from the spec: a block at height h is a macro block iff
h mod BATCH_LENGTH == 0. -/
def is_macro_block_at (h : Nat) : Bool := h % BATCH_LENGTH = 0

/-- Modelled from the spec: a block at height h is an election block iff
h mod EPOCH_LENGTH == 0. -/
def is_election_block_at (h : Nat) : Bool := h % EPOCH_LENGTH = 0

/-- Modelled from the spec: epoch index of a height (ceiling division). -/
def epoch_at (h : Nat) : Nat := (h + EPOCH_LENGTH - 1) / EPOCH_LENGTH

/-! ### Data model -/

/-- Block type tag, from `block::BlockType`. -/
inductive BlockType
  | Macro
  | Micro
deriving DecidableEq

/-- Header of a fork proof.  `block::ForkProof` carries two full micro
headers and two signatures; the blockchain code only reads
`header1.block_number` and `header1.view_number`, which is what we keep. -/
structure ForkProofHeader where
  blockNumber : Nat
  viewNumber : Nat
deriving DecidableEq

/-- A fork proof, reduced to the header fields the embedded code reads. -/
structure ForkProof where
  header1 : ForkProofHeader
deriving DecidableEq

/-- A block (also standing in for its header).  Hashes, VRF seeds, state
roots and public keys are abstracted as `Nat` tokens; the `hash` field
models the externally computed Blake2b hash of the block.  The body fields
`txHashes` (transaction hashes), `forkProofs` and `validators` cover what
the embedded code reads from micro and macro bodies. -/
structure Block where
  ty : BlockType
  blockNumber : Nat
  viewNumber : Nat
  timestamp : Nat
  parentHash : Nat
  seed : Nat
  hash : Nat
  parentElectionHash : Nat
  stateRoot : Nat
  bodyRoot : Nat
  txHashes : List Nat
  forkProofs : List ForkProof
  validators : Option (List Nat)
deriving DecidableEq

/-- Modelled from the spec / `block` crate: `Block::next_view_number` is 0
after a macro block (views reset at batch boundaries) and the block's own
view number after a micro block. -/
def Block.nextViewNumber (b : Block) : Nat :=
  match b.ty with
  | BlockType.Macro => 0
  | BlockType.Micro => b.viewNumber

/-- The three slashed-set bitsets of a chain info (`slots::SlashedSet`),
modelled as ascending lists of slot indices. -/
structure SlashedSet where
  viewChangeEpochState : List Nat
  forkProofEpochState : List Nat
  prevEpochState : List Nat
deriving DecidableEq

/-- Union of the two current-epoch bitsets (`SlashedSet::current_epoch`).
It is only ever passed onward to the external body-building oracle, so the
list concatenation stands in for the bitset union. -/
def SlashedSet.currentEpoch (s : SlashedSet) : List Nat :=
  s.viewChangeEpochState ++ s.forkProofEpochState

/-- A chain-info record (`chain_info::ChainInfo`). -/
structure ChainInfo where
  head : Block
  onMainChain : Bool
  mainChainSuccessor : Option Nat
  cumTxFees : Nat
  slashedSet : SlashedSet
deriving DecidableEq

/-- Embedding of `ChainInfo::dummy(block)`: a fresh record that is not on the main
chain.  Used by `order_chains` for the incoming block. -/
def ChainInfo.dummy (b : Block) : ChainInfo :=
  { head := b
    onMainChain := false
    mainChainSuccessor := none
    cumTxFees := 0
    slashedSet := ⟨[], [], []⟩ }

/-- Error taxonomy: `block::BlockError` (intrinsic block errors). -/
inductive BlockError
  | FromTheFuture
  | InvalidViewNumber
  | NoViewChangeProof
  | NoJustification
  | InvalidJustification
  | BodyHashMismatch
  | MissingBody
  | InvalidValidators
  | InvalidHistoryRoot
  | AccountsHashMismatch
deriving DecidableEq

/-- Error taxonomy: `blockchain_base::PushError`. -/
inductive PushError
  | Orphan
  | InvalidSuccessor
  | DuplicateTransaction
  | InvalidFork
  | InvalidBlock (e : BlockError)
  | AccountsError
deriving DecidableEq

/-- Result taxonomy: `blockchain_base::PushResult`. -/
inductive PushResult
  | Known
  | Extended
  | Rebranched
  | Forked
  | Ignored
deriving DecidableEq

/-- Fork-choice classification (`ChainOrdering` in blockchain.rs). -/
inductive ChainOrdering
  | Extend
  | Better
  | Inferior
  | Unknown
deriving DecidableEq

/-- Three-valued optional check (`OptionalCheck` in blockchain.rs). -/
inductive OptionalCheck (α : Type)
  | Some (a : α)
  | None
  | Skip
deriving DecidableEq

/-- Embedding of `OptionalCheck::is_some`. -/
def OptionalCheck.isSome {α : Type} : OptionalCheck α → Bool
  | OptionalCheck.Some _ => true
  | _ => false

/-! ### Fork choice: `order_chains` (blockchain.rs lines 566-659)

The chain store is reduced to the two lookups the function performs:
`byHash` (`get_chain_info`) and `blockAt` (`get_block_at`, main chain). -/

/-- Context for `order_chains`: the main-chain head and the chain-store
lookups the function calls. -/
structure OrderCtx where
  headHash : Nat
  headHeight : Nat
  byHash : Nat → Option ChainInfo
  blockAt : Nat → Option Block

/-- The backward walk of `order_chains`: follow the branch until a block on
the main chain is reached, collecting the branch view numbers.  The Rust
loop pushes view numbers onto a Vec and later pops them from the end; we
cons them onto the accumulator, so the resulting list is already in pop
order (deepest branch block first).  Rust panics (the macro-on-branch
assertion and the corrupted-store expect) are `none`; the fuel argument
makes the recursion structural and stands in for the loop's termination on
a well-linked store. -/
def walkBack (ctx : OrderCtx) : Nat → List Nat → ChainInfo → ChainInfo →
    Option (List Nat × Nat)
  | fuel, rviews, current, prev =>
    if prev.onMainChain then some (rviews, current.head.blockNumber)
    else if prev.head.ty = BlockType.Macro then none
    else
      match fuel with
      | 0 => none
      | Nat.succ f =>
        match ctx.byHash prev.head.parentHash with
        | Option.none => none
        | Option.some pp => walkBack ctx f (prev.head.viewNumber :: rviews) prev pp

/-- The comparison loop of `order_chains`: for heights `h` from the first
branch height up to `minH`, pop the next branch view number and compare it
against the main-chain view number at the same height.  The first differing
height decides; an exhausted Vec (`pop().unwrap()`) or a missing main-chain
block (`expect`) is a panic (`none`); completing the loop with all equal
leaves the ordering `Unknown`. -/
def compareLoop (ctx : OrderCtx) : Nat → Nat → List Nat → Option ChainOrdering
  | h, minH, [] => if minH < h then some ChainOrdering.Unknown else none
  | h, minH, v :: rest =>
    if minH < h then some ChainOrdering.Unknown
    else
      match ctx.blockAt h with
      | Option.none => none
      | Option.some mb =>
        if mb.viewNumber < v then some ChainOrdering.Better
        else if v < mb.viewNumber then some ChainOrdering.Inferior
        else compareLoop ctx (h + 1) minH rest

/-- Embedding of `Blockchain::order_chains`: classify an incoming block against the
current head.  `Extend` if it extends the head; otherwise walk its branch
back to the main chain and compare view numbers height by height up to
`min(head_height, block_number)`; if all overlapping heights tie, the
longer chain wins and equal length is `Unknown`. -/
def order_chains (ctx : OrderCtx) (block : Block) (prevInfo : ChainInfo)
    (fuel : Nat) : Option ChainOrdering :=
  if block.parentHash = ctx.headHash then some ChainOrdering.Extend
  else
    match walkBack ctx fuel [block.viewNumber] (ChainInfo.dummy block) prevInfo with
    | Option.none => none
    | Option.some (views, currentHeight) =>
      match compareLoop ctx currentHeight (min ctx.headHeight block.blockNumber) views with
      | Option.some ChainOrdering.Unknown =>
        some (if ctx.headHeight < block.blockNumber then ChainOrdering.Better
              else ChainOrdering.Unknown)
      | o => o

/-! Pure view-number comparison, used to state and prove the relational
properties of `order_chains` (claim C5).  `cmpViews mains branch` replays
the comparison loop on the list `mains` of main-chain view numbers for the
overlapping heights. -/

/-- Pure counterpart of `compareLoop`: first differing position decides,
main lower than branch is `Better` (for the branch), main higher is
`Inferior`; running out of main heights is `Unknown`; running out of branch
views first is the `pop().unwrap()` panic. -/
def cmpViews : List Nat → List Nat → Option ChainOrdering
  | [], _ => some ChainOrdering.Unknown
  | _ :: _, [] => none
  | m :: ms, v :: vs =>
    if m < v then some ChainOrdering.Better
    else if v < m then some ChainOrdering.Inferior
    else cmpViews ms vs

/-- Pure counterpart of the whole post-walk decision of `order_chains`:
compare over the overlap, then let the longer chain win on an all-tie. -/
def orderPure (lm lb : List Nat) : Option ChainOrdering :=
  match cmpViews (lm.take (min lm.length lb.length)) lb with
  | Option.some ChainOrdering.Unknown =>
    some (if lm.length < lb.length then ChainOrdering.Better else ChainOrdering.Unknown)
  | o => o

/-! ### Block verifier: `verify_block_header` (blockchain.rs lines 431-559) -/

/-- The view-change message built by the verifier (`block::ViewChange`).
The source fills `prev_seed` with the predecessor's VRF seed; the message
entropy is derived from that seed by the external BLS layer. -/
structure ViewChange where
  blockNumber : Nat
  newViewNumber : Nat
  prevSeed : Nat
deriving DecidableEq

/-- Context for `verify_block_header`: chain-store lookup, wall clock, the
current validator set, and the external cryptographic verifiers (VRF seed
chain check and BLS view-change-proof check, with the validator set and the
quorum threshold passed through as the source does). -/
structure VerifyCtx where
  byHash : Nat → Option ChainInfo
  now : Nat
  currentValidators : List Nat
  seedVerify : Nat → Nat → Nat → Bool
  vcpVerify : Nat → ViewChange → List Nat → Nat → Bool
  electionHeadHash : Nat

/-- Embedding of `Blockchain::get_next_block_type` (for an explicitly given last block
number): macro iff the next height is a macro height. -/
def get_next_block_type (lastNumber : Nat) : BlockType :=
  if is_macro_block_at (lastNumber + 1) then BlockType.Macro else BlockType.Micro

/-- Tail of `verify_block_header` after the view-number rules: VRF seed
verification against the intended slot owner, then (macro only) the
parent-election-hash check. -/
def verify_header_tail (ctx : VerifyCtx) (header : Block) (prevSeed : Nat)
    (intendedOwner : Nat) : Except PushError Unit :=
  if ctx.seedVerify header.seed prevSeed intendedOwner = false then
    Except.error (PushError.InvalidBlock BlockError.InvalidJustification)
  else if header.ty = BlockType.Macro then
    if header.parentElectionHash ≠ ctx.electionHeadHash then
      Except.error PushError.InvalidSuccessor
    else Except.ok ()
  else Except.ok ()

/-- Embedding of `Blockchain::verify_block_header`: predecessor existence, successor
type/number/timestamp checks, future-drift check, view-number rules with
the three-valued view-change-proof check, seed verification, and the macro
parent-election check, in source order.  Note that Rust's
`timestamp().saturating_sub(now)` is exactly Nat subtraction, and that
`header.block_number() - 1` is only evaluated after the block-number check
guarantees it does not underflow. -/
def verify_block_header (ctx : VerifyCtx) (header : Block)
    (viewChangeProof : OptionalCheck Nat) (intendedOwner : Nat) :
    Except PushError Unit :=
  match ctx.byHash header.parentHash with
  | Option.none => Except.error PushError.Orphan
  | Option.some prevInfo =>
    if get_next_block_type prevInfo.head.blockNumber ≠ header.ty then
      Except.error PushError.InvalidSuccessor
    else if prevInfo.head.blockNumber + 1 ≠ header.blockNumber then
      Except.error PushError.InvalidSuccessor
    else if header.timestamp ≤ prevInfo.head.timestamp then
      Except.error PushError.InvalidSuccessor
    else if TIMESTAMP_MAX_DRIFT < header.timestamp - ctx.now then
      Except.error (PushError.InvalidBlock BlockError.FromTheFuture)
    else
      let viewNumber := if is_macro_block_at (header.blockNumber - 1) then 0
        else prevInfo.head.viewNumber
      if header.viewNumber < viewNumber then
        Except.error (PushError.InvalidBlock BlockError.InvalidViewNumber)
      else if viewNumber < header.viewNumber then
        match viewChangeProof with
        | OptionalCheck.None =>
          Except.error (PushError.InvalidBlock BlockError.NoViewChangeProof)
        | OptionalCheck.Some p =>
          if ctx.vcpVerify p
              ⟨header.blockNumber, header.viewNumber, prevInfo.head.seed⟩
              ctx.currentValidators TWO_THIRD_SLOTS = false then
            Except.error (PushError.InvalidBlock BlockError.InvalidJustification)
          else verify_header_tail ctx header prevInfo.head.seed intendedOwner
        | OptionalCheck.Skip =>
          verify_header_tail ctx header prevInfo.head.seed intendedOwner
      else
        if viewChangeProof.isSome then
          Except.error (PushError.InvalidBlock BlockError.InvalidJustification)
        else verify_header_tail ctx header prevInfo.head.seed intendedOwner

/-- The spec's effective view number: 0 if the predecessor is a macro
block, otherwise the predecessor's view number. -/
def effectiveView (prev : Block) : Nat :=
  if prev.ty = BlockType.Macro then 0 else prev.viewNumber

/-! ### Slash inherents (blockchain.rs lines 2028-2136) -/

/-- Inherent types used by the generator. -/
inductive InherentType
  | Slash
  | Reward
  | FinalizeBatch
deriving DecidableEq

/-- Embedding of `primitives::slot::SlashedSlot`, the payload of a slash inherent. -/
structure SlashedSlot where
  slot : Nat
  validatorKey : Nat
  eventBlock : Nat
deriving DecidableEq

/-- Embedding of `account::Inherent`.  The serialized `SlashedSlot` payload is kept
structured (`data = some slot` for slashes, `none` for the empty payloads
of reward and finalize-batch inherents). -/
structure Inherent where
  ty : InherentType
  target : Nat
  value : Nat
  data : Option SlashedSlot
deriving DecidableEq

/-- Embedding of `block::ViewChanges`: the range of skipped views at one height. -/
structure ViewChanges where
  blockNumber : Nat
  firstViewNumber : Nat
  lastViewNumber : Nat
deriving DecidableEq

/-- Modelled from the spec (`block` crate): `ViewChanges::new` yields a
value only when there is at least one skipped view, i.e. when the first
view number is strictly below the block's view number. -/
def ViewChanges.new (blockNumber firstViewNumber lastViewNumber : Nat) :
    Option ViewChanges :=
  if firstViewNumber < lastViewNumber then
    some ⟨blockNumber, firstViewNumber, lastViewNumber⟩
  else none

/-- A validator slot band (`primitives::slot::ValidatorSlotBand`): number
of consecutive slots and the reward address. -/
structure ValidatorSlot where
  numSlots : Nat
  rewardAddress : Nat
deriving DecidableEq

/-- The slot assignment of an epoch (`primitives::slot::Slots`), reduced to
the validator slot bands. -/
structure Slots where
  validatorSlots : List ValidatorSlot
deriving DecidableEq

/-- Modelled from the spec: the burn address. -/
def burn_address : Nat := 0

/-- Context of external collaborators for the slash-inherent generator, the
commit/revert engine and epoch finalization: slot-owner resolution
(`get_slot_at`, returning the producer's key token and the slot index),
the validator registry address, the accounts-tree operations, the staking
contract's validator selection, the macro-body builder, the reward
schedule, and the alias-method sampler.  The abstract accounts-tree state
is a `Nat` token; `accCommit`/`accRevert` return `none` on an accounts
error, and `accHash` is the accounts root. -/
structure BC where
  slotAt : Nat → Nat → Option (Nat × Nat)
  validatorRegistry : Nat
  accCommit : Nat → List Nat → List Inherent → Nat → Option (Nat × Nat)
  accRevert : Nat → List Nat → List Inherent → Nat → Nat → Option Nat
  accHash : Nat → Nat
  checkInherent : Nat → Inherent → Nat → Bool
  nextValidators : Nat → List Nat
  macroBodyHash : List Nat → List Nat → Nat
  blockReward : Block → Block → Nat
  aliasSample : List Nat → Nat → Nat
  slotsFromBlock : Block → Slots

/-- Option-valued map over a list: `some` of the mapped list when the
function succeeds everywhere, `none` as soon as it fails (a Rust
`unwrap` inside a loop or iterator). -/
def optMap {α β : Type} (f : α → Option β) : List α → Option (List β)
  | [] => some []
  | a :: rest =>
    match f a with
    | Option.none => none
    | Option.some b =>
      match optMap f rest with
      | Option.none => none
      | Option.some bs => some (b :: bs)

/-- Embedding of `Blockchain::inherent_from_fork_proof`: slash inherent for the slot
owner at the fork proof's (block_number, view_number); `get_slot_at`
failure is the source's `unwrap` panic. -/
def inherent_from_fork_proof (bc : BC) (fp : ForkProof) : Option Inherent :=
  match bc.slotAt fp.header1.blockNumber fp.header1.viewNumber with
  | Option.none => none
  | Option.some (producer, slot) =>
    some { ty := InherentType.Slash
           target := bc.validatorRegistry
           value := 0
           data := some ⟨slot, producer, fp.header1.blockNumber⟩ }

/-- The ascending list of skipped view numbers, the Rust range
`first_view_number..last_view_number`. -/
def viewRange (first last : Nat) : List Nat :=
  (List.range (last - first)).map (fun i => first + i)

/-- Embedding of `Blockchain::inherents_from_view_changes`: one slash inherent per
skipped view number, in ascending order. -/
def inherents_from_view_changes (bc : BC) (vc : ViewChanges) :
    Option (List Inherent) :=
  optMap (fun v =>
    match bc.slotAt vc.blockNumber v with
    | Option.none => none
    | Option.some (producer, slot) =>
      some { ty := InherentType.Slash
             target := bc.validatorRegistry
             value := 0
             data := some ⟨slot, producer, vc.blockNumber⟩ })
    (viewRange vc.firstViewNumber vc.lastViewNumber)

/-- Embedding of `Blockchain::create_slash_inherents`: fork-proof slashes first, then
view-change slashes. -/
def create_slash_inherents (bc : BC) (forkProofs : List ForkProof)
    (viewChanges : Option ViewChanges) : Option (List Inherent) :=
  match optMap (inherent_from_fork_proof bc) forkProofs with
  | Option.none => none
  | Option.some fps =>
    match viewChanges with
    | Option.none => some fps
    | Option.some vc =>
      match inherents_from_view_changes bc vc with
      | Option.none => none
      | Option.some vcs => some (fps ++ vcs)

/-- The slash inherent emitted for position (bn, v) with a given event
block, as determined by the slot-owner oracle.  Used to state claim C7;
the fallback arm is unreachable under the totality hypothesis. -/
def slashInherentAt (bc : BC) (bn v eventBlock : Nat) : Inherent :=
  match bc.slotAt bn v with
  | Option.some (producer, slot) =>
    { ty := InherentType.Slash
      target := bc.validatorRegistry
      value := 0
      data := some ⟨slot, producer, eventBlock⟩ }
  | Option.none =>
    { ty := InherentType.Slash
      target := bc.validatorRegistry
      value := 0
      data := none }

/-! ### Blockchain state, chain store and replay cache -/

/-- The replay cache (`transaction_cache::TransactionCache`).  The crate is
not part of the analysed sources; modelled from the spec: a bounded FIFO of
the transaction hashes of the last W main-chain blocks, newest first, whose
push/revert/prepend operations mirror chain motion. -/
structure TxCache where
  entries : List (Nat × List Nat)
deriving DecidableEq

/-- Modelled from the spec: whether the cache holds no blocks. -/
def TxCache.isEmpty (c : TxCache) : Bool := c.entries.isEmpty

/-- Modelled from the spec: hash of the newest cached block. -/
def TxCache.headHash? (c : TxCache) : Option Nat := c.entries.head?.map Prod.fst

/-- Modelled from the spec: hash of the oldest cached block. -/
def TxCache.tailHash? (c : TxCache) : Option Nat :=
  c.entries.getLast?.map Prod.fst

/-- Modelled from the spec: how many blocks are missing to fill the
window W. -/
def TxCache.missingBlocks (c : TxCache) : Nat :=
  TRANSACTION_VALIDITY_WINDOW - c.entries.length

/-- Modelled from the spec: does the cache contain any transaction of the
block. -/
def TxCache.containsAny (c : TxCache) (b : Block) : Bool :=
  b.txHashes.any (fun t => c.entries.any (fun e => e.2.contains t))

/-- Modelled from the spec: push a block's transactions at the new end,
keeping at most W blocks. -/
def TxCache.pushBlock (c : TxCache) (b : Block) : TxCache :=
  ⟨((b.hash, b.txHashes) :: c.entries).take TRANSACTION_VALIDITY_WINDOW⟩

/-- Modelled from the spec: undo the newest push. -/
def TxCache.revertBlock (c : TxCache) (_b : Block) : TxCache :=
  ⟨c.entries.tail⟩

/-- Modelled from the spec: add an older block at the old end, if the
window is not full. -/
def TxCache.prependBlock (c : TxCache) (b : Block) : TxCache :=
  if c.entries.length < TRANSACTION_VALIDITY_WINDOW then
    ⟨c.entries ++ [(b.hash, b.txHashes)]⟩
  else c

/-- The chain store (`chain_store::ChainStore`), reduced to the views the
embedded code uses: chain infos by hash, the main-chain height index, the
per-block receipts, and the head pointer. -/
structure ChainStoreM where
  byHash : Nat → Option ChainInfo
  atHeight : Nat → Option ChainInfo
  receipts : Nat → Option Nat
  headPtr : Nat

/-- Embedding of `ChainStore::put_chain_info`: store the record under its hash and, when
it is on the main chain, under its height. -/
def putChainInfo (s : ChainStoreM) (h : Nat) (ci : ChainInfo) : ChainStoreM :=
  { s with
    byHash := fun x => if x = h then some ci else s.byHash x
    atHeight :=
      if ci.onMainChain then
        fun n => if n = ci.head.blockNumber then some ci else s.atHeight n
      else s.atHeight }

/-- Embedding of `ChainStore::remove_chain_info` (hash record removal). -/
def removeChainInfo (s : ChainStoreM) (h : Nat) : ChainStoreM :=
  { s with byHash := fun x => if x = h then none else s.byHash x }

/-- Embedding of `ChainStore::set_head`. -/
def setHead (s : ChainStoreM) (h : Nat) : ChainStoreM := { s with headPtr := h }

/-- Embedding of `ChainStore::put_receipts`. -/
def putReceipts (s : ChainStoreM) (n r : Nat) : ChainStoreM :=
  { s with receipts := fun x => if x = n then some r else s.receipts x }

/-- Embedding of `ChainStore::clear_receipts`. -/
def clearReceipts (s : ChainStoreM) : ChainStoreM :=
  { s with receipts := fun _ => none }

/-- Embedding of `ChainStore::get_blocks_backward`: up to `count` ancestors of the block
at `startHash`, newest first, following parent hashes. -/
def getBlocksBackward (store : ChainStoreM) : Nat → Nat → List Block
  | 0, _ => []
  | Nat.succ count, startHash =>
    match store.byHash startHash with
    | Option.none => []
    | Option.some ci =>
      match store.byHash ci.head.parentHash with
      | Option.none => []
      | Option.some pci =>
        pci.head :: getBlocksBackward store count ci.head.parentHash

/-- The in-memory `BlockchainState`: abstract accounts-tree state, replay
cache, main-chain pointer, macro and election heads, and the two slot
assignments. -/
structure BCState where
  accounts : Nat
  transactionCache : TxCache
  mainChain : ChainInfo
  headHash : Nat
  macroInfo : ChainInfo
  macroHeadHash : Nat
  electionHead : Block
  electionHeadHash : Nat
  currentSlots : Option Slots
  previousSlots : Option Slots

/-- The mutable world a push acts on: the persistent chain store plus the
in-memory state.  A write transaction is modelled by threading updated
copies and only installing them on commit; an abort returns the original
world. -/
structure World where
  store : ChainStoreM
  state : BCState

/-! ### Epoch finalization (blockchain.rs lines 2157-2318) -/

/-- The inner while-loop of `finalize_previous_epoch` for one validator
slot band: the Rust code peeks the slashed-set iterator without ever
advancing it, so the peeked element is constant.  If the peeked slot lies
below the band start, `assert!(next_slashed_slot >= first_slot_number)`
fails; if it lies inside the band, the loop keeps decrementing
`num_eligible_slots` against the same peeked element until
`assert!(num_eligible_slots > 0)` fails.  Both panics are `none`; the
recursion is on `num_eligible_slots`. -/
def slashCount (first last : Nat) (peek : Option Nat) :
    Nat → Nat → Option (Nat × Nat)
  | numEligible, numSlashed =>
    match peek with
    | Option.none => some (numEligible, numSlashed)
    | Option.some s =>
      if s < first then none
      else if s < last then
        match numEligible with
        | 0 => none
        | Nat.succ n => slashCount first last peek n (numSlashed + 1)
      else some (numEligible, numSlashed)

/-- The per-band fold of `finalize_previous_epoch`: accumulate accepted
reward inherents, their eligible-slot weights, and the burned reward.  The
peeked slashed slot is passed through unchanged, as in the source. -/
def bandLoop (bc : BC) (committedAccounts : Nat) (bn slotReward : Nat)
    (peek : Option Nat) :
    List ValidatorSlot → Nat → Nat → List Inherent → List Nat →
    Option (List Inherent × List Nat × Nat)
  | [], _, burned, inhs, elig => some (inhs, elig, burned)
  | vs :: rest, firstSlot, burned, inhs, elig =>
    let lastSlot := firstSlot + vs.numSlots
    match slashCount firstSlot lastSlot peek vs.numSlots 0 with
    | Option.none => none
    | Option.some (numEligible, numSlashed) =>
      let reward := slotReward * numEligible
      let burned := burned + slotReward * numSlashed
      let inh : Inherent :=
        ⟨InherentType.Reward, vs.rewardAddress, reward, none⟩
      if bc.checkInherent committedAccounts inh bn then
        bandLoop bc committedAccounts bn slotReward peek rest lastSlot burned
          (inhs ++ [inh]) (elig ++ [numEligible])
      else
        bandLoop bc committedAccounts bn slotReward peek rest lastSlot
          (burned + reward) inhs elig

/-- Embedding of `Blockchain::finalize_previous_epoch`: compute the reward inherents for
the epoch being closed.  Epoch 0 is finalized by definition (empty list).
The slashed set is iterated through a peekable iterator that the source
never advances; `slashCount` reproduces that behaviour.  The remainder is
added to the alias-sampled accepted inherent (index out of range is the
Rust indexing panic), then the burn inherent and the finalize-batch
inherent are appended. -/
def finalize_previous_epoch (bc : BC) (state : BCState)
    (chainInfo : ChainInfo) : Option (List Inherent) :=
  if chainInfo.head.ty ≠ BlockType.Macro then none
  else
    let epoch := epoch_at chainInfo.head.blockNumber - 1
    if epoch = 0 then some []
    else
      match state.previousSlots with
      | Option.none => none
      | Option.some slots =>
        let slashedSet := chainInfo.slashedSet.prevEpochState
        let blockReward := bc.blockReward chainInfo.head state.macroInfo.head
        let rewardPot := blockReward + chainInfo.cumTxFees
        let slotReward := rewardPot / SLOTS
        let remainder := rewardPot % SLOTS
        match bandLoop bc state.accounts chainInfo.head.blockNumber slotReward
            slashedSet.head? slots.validatorSlots 0 0 [] [] with
        | Option.none => none
        | Option.some (inhs, elig, burned) =>
          let index := bc.aliasSample elig chainInfo.head.seed
          if h : index < inhs.length then
            let winner := inhs.get ⟨index, h⟩
            let inhs := inhs.set index { winner with value := winner.value + remainder }
            some (inhs ++
              [⟨InherentType.Reward, burn_address, burned, none⟩,
               ⟨InherentType.FinalizeBatch, bc.validatorRegistry, 0, none⟩])
          else none

/-! ### Commit / revert engine (blockchain.rs lines 1262-1376) -/

/-- Embedding of `Blockchain::commit_accounts`: build the inherents for the block
(epoch finalization on election macro blocks, then view-change slashes;
fork-proof plus view-change slashes for micro blocks), commit to the
accounts tree, store or clear receipts, and check the resulting accounts
root against the header's state root.  `none` is a panic inside inherent
construction; `Except.error` is the source's `Err` return. -/
def commit_accounts (bc : BC) (state : BCState) (firstViewNumber : Nat)
    (store : ChainStoreM) (acc : Nat) (chainInfo : ChainInfo) :
    Option (Except PushError (Nat × ChainStoreM)) :=
  let block := chainInfo.head
  match block.ty with
  | BlockType.Macro =>
    let finInherents : Option (List Inherent) :=
      if is_election_block_at block.blockNumber then
        finalize_previous_epoch bc state chainInfo
      else some []
    match finInherents with
    | Option.none => none
    | Option.some inh0 =>
      let viewChanges :=
        ViewChanges.new block.blockNumber firstViewNumber block.viewNumber
      match create_slash_inherents bc [] viewChanges with
      | Option.none => none
      | Option.some inh1 =>
        let inherents := inh0 ++ inh1
        let receipts := bc.accCommit acc [] inherents block.blockNumber
        let store := clearReceipts store
        match receipts with
        | Option.none => some (Except.error PushError.AccountsError)
        | Option.some (acc', _r) =>
          if bc.accHash acc' ≠ block.stateRoot then
            some (Except.error (PushError.InvalidBlock BlockError.AccountsHashMismatch))
          else some (Except.ok (acc', store))
  | BlockType.Micro =>
    let viewChanges :=
      ViewChanges.new block.blockNumber firstViewNumber block.viewNumber
    match create_slash_inherents bc block.forkProofs viewChanges with
    | Option.none => none
    | Option.some inherents =>
      match bc.accCommit acc block.txHashes inherents block.blockNumber with
      | Option.none => some (Except.error PushError.AccountsError)
      | Option.some (acc', r) =>
        let store := putReceipts store block.blockNumber r
        if bc.accHash acc' ≠ block.stateRoot then
          some (Except.error (PushError.InvalidBlock BlockError.AccountsHashMismatch))
        else some (Except.ok (acc', store))

/-- Embedding of `Blockchain::revert_accounts`: assert the accounts root matches the
micro block's state root, regenerate the same slash inherents, fetch the
stored receipts, and revert.  All failure modes in the source are panics
(`none`). -/
def revert_accounts (bc : BC) (store : ChainStoreM) (acc : Nat)
    (micro : Block) (prevViewNumber : Nat) : Option Nat :=
  if bc.accHash acc ≠ micro.stateRoot then none
  else
    let viewChanges :=
      ViewChanges.new micro.blockNumber prevViewNumber micro.viewNumber
    match create_slash_inherents bc micro.forkProofs viewChanges with
    | Option.none => none
    | Option.some inherents =>
      match store.receipts micro.blockNumber with
      | Option.none => none
      | Option.some receipts =>
        bc.accRevert acc micro.txHashes inherents micro.blockNumber receipts

/-! ### Extend (blockchain.rs lines 916-1035) -/

/-- Embedding of `Blockchain::extend`: inside one write transaction, reject replayed
transactions, commit accounts, check the macro body (validators on
election blocks, recomputed extrinsics hash on all macro blocks), wire the
store records, and update the in-memory state.  Any error abandons the
write transaction, returning the original world. -/
def extend (bc : BC) (w : World) (blockHash : Nat)
    (chainInfo prevInfo : ChainInfo) :
    Option (World × Except PushError PushResult) :=
  if TxCache.containsAny w.state.transactionCache chainInfo.head then
    some (w, Except.error PushError.DuplicateTransaction)
  else
    match commit_accounts bc w.state prevInfo.head.nextViewNumber w.store
        w.state.accounts chainInfo with
    | Option.none => none
    | Option.some (Except.error e) => some (w, Except.error e)
    | Option.some (Except.ok (acc', store1)) =>
      let macroFailure : Option PushError :=
        if chainInfo.head.ty = BlockType.Macro then
          let bodyCheck : Option PushError :=
            if bc.macroBodyHash chainInfo.slashedSet.prevEpochState
                chainInfo.slashedSet.currentEpoch ≠ chainInfo.head.bodyRoot then
              some (PushError.InvalidBlock BlockError.BodyHashMismatch)
            else none
          if is_election_block_at chainInfo.head.blockNumber then
            match chainInfo.head.validators with
            | Option.some vs =>
              if (bc.nextValidators chainInfo.head.seed) ≠ vs then
                some (PushError.InvalidBlock BlockError.InvalidValidators)
              else bodyCheck
            | Option.none =>
              some (PushError.InvalidBlock BlockError.InvalidValidators)
          else bodyCheck
        else none
      match macroFailure with
      | Option.some e => some (w, Except.error e)
      | Option.none =>
        let chainInfo' := { chainInfo with onMainChain := true }
        let prevInfo' := { prevInfo with mainChainSuccessor := some chainInfo.head.hash }
        let store2 := putChainInfo store1 blockHash chainInfo'
        let store3 := putChainInfo store2 chainInfo.head.parentHash prevInfo'
        let store4 := setHead store3 blockHash
        let cache' := TxCache.pushBlock w.state.transactionCache chainInfo'.head
        let st1 :=
          if chainInfo.head.ty = BlockType.Macro then
            let stM := { w.state with macroInfo := chainInfo', macroHeadHash := blockHash }
            if is_election_block_at chainInfo.head.blockNumber then
              { stM with
                electionHead := chainInfo'.head
                electionHeadHash := blockHash
                previousSlots := stM.currentSlots
                currentSlots := some (bc.slotsFromBlock chainInfo'.head) }
            else stM
          else w.state
        let st2 := { st1 with
          transactionCache := cache'
          mainChain := chainInfo'
          headHash := blockHash
          accounts := acc' }
        some ({ store := store4, state := st2 }, Except.ok PushResult.Extended)

/-! ### Rebranch (blockchain.rs lines 1037-1260) -/

/-- The first walk of `rebranch`: follow the fork back until a block on the
main chain (the common ancestor), collecting the fork chain tip-first.  A
macro block on the fork is the source's fatal assertion, a missing
predecessor the corrupted-store expect. -/
def forkWalk (w : World) : Nat → List (Nat × ChainInfo) → (Nat × ChainInfo) →
    Option (List (Nat × ChainInfo) × (Nat × ChainInfo))
  | fuel, acc, current =>
    if current.2.onMainChain then some (acc, current)
    else if current.2.head.ty = BlockType.Macro then none
    else
      match fuel with
      | 0 => none
      | Nat.succ f =>
        match w.store.byHash current.2.head.parentHash with
        | Option.none => none
        | Option.some prevInfo =>
          forkWalk w f (acc ++ [current])
            (current.2.head.parentHash, prevInfo)

/-- The revert walk of `rebranch`: from the current head down to the common
ancestor, revert accounts and the replay cache block by block, asserting
after each step that the accounts root equals the predecessor's state
root.  Reverting a macro block is the source's fatal panic. -/
def revertLoop (bc : BC) (w : World) : Nat → Nat → TxCache →
    List (Nat × ChainInfo) → (Nat × ChainInfo) → Nat →
    Option (List (Nat × ChainInfo) × Nat × TxCache)
  | fuel, acc, cache, revChain, current, ancestorHash =>
    if current.1 = ancestorHash then some (revChain, acc, cache)
    else
      match current.2.head.ty with
      | BlockType.Macro => none
      | BlockType.Micro =>
        match fuel with
        | 0 => none
        | Nat.succ f =>
          match w.store.byHash current.2.head.parentHash with
          | Option.none => none
          | Option.some prevInfo =>
            match revert_accounts bc w.store acc current.2.head
                prevInfo.head.viewNumber with
            | Option.none => none
            | Option.some acc' =>
              let cache' := TxCache.revertBlock cache current.2.head
              if bc.accHash acc' ≠ prevInfo.head.stateRoot then none
              else
                revertLoop bc w f acc' cache' (revChain ++ [current])
                  (current.2.head.parentHash, prevInfo) ancestorHash

/-- The replay-cache refill of `rebranch`: assert the reverted cache is
either empty or headed by the ancestor, then prepend stored blocks below
its tail until the window is full again, and assert the expected number of
missing blocks. -/
def cacheRefill (w : World) (cache : TxCache) (ancestor : Nat × ChainInfo) :
    Option TxCache :=
  if ¬ (TxCache.isEmpty cache = true ∨ TxCache.headHash? cache = some ancestor.1) then
    none
  else
    match (if TxCache.isEmpty cache then ancestor.2.mainChainSuccessor
           else TxCache.tailHash? cache) with
    | Option.none => none
    | Option.some startHash =>
      let blocks := getBlocksBackward w.store (TxCache.missingBlocks cache) startHash
      let cache' := blocks.foldl TxCache.prependBlock cache
      if TxCache.missingBlocks cache' ≠
          TRANSACTION_VALIDITY_WINDOW - (ancestor.2.head.blockNumber + 1) then none
      else some cache'

/-- The fork-apply loop of `rebranch`: walk the fork chain ancestor-to-tip,
reject replayed transactions, commit each block's accounts, and push it
into the scratch cache.  On failure the remaining fork hashes are returned
so that the caller can delete them from the store; a macro block here is
the source's `unreachable!`. -/
def applyForkLoop (bc : BC) (state : BCState) :
    List (Nat × ChainInfo) → Nat → ChainStoreM → Nat → TxCache →
    Option (Except (List Nat) (Nat × ChainStoreM × TxCache))
  | [], _, store, acc, cache => some (Except.ok (acc, store, cache))
  | fb :: rest, prevViewNumber, store, acc, cache =>
    match fb.2.head.ty with
    | BlockType.Macro => none
    | BlockType.Micro =>
      let result : Option (Except PushError (Nat × ChainStoreM)) :=
        if ¬ TxCache.containsAny cache fb.2.head then
          commit_accounts bc state prevViewNumber store acc fb.2
        else some (Except.error PushError.DuplicateTransaction)
      match result with
      | Option.none => none
      | Option.some (Except.error _e) =>
        some (Except.error ((fb :: rest).map Prod.fst))
      | Option.some (Except.ok (acc', store')) =>
        applyForkLoop bc state rest fb.2.head.nextViewNumber store' acc'
          (TxCache.pushBlock cache fb.2.head)

/-- Flag pass over the adopted fork chain (tip-first list): every record
becomes main-chain, the successor of each record is the hash of the record
one step closer to the tip (`none` for the tip itself). -/
def forkFlags : List (Nat × ChainInfo) → Option Nat → ChainStoreM → ChainStoreM
  | [], _, s => s
  | e :: rest, succHash, s =>
    forkFlags rest (some e.1)
      (putChainInfo s e.1
        { e.2 with onMainChain := true, mainChainSuccessor := succHash })

/-- Embedding of `Blockchain::rebranch`: find the common ancestor, refuse to revert
below the macro head (`InvalidFork`), revert the main chain to the
ancestor, refill the scratch replay cache, re-apply the fork (deleting it
from the store and returning `InvalidFork` if any block fails), then flip
the on-main-chain flags, rewire the successors, move the head, and install
the scratch cache. -/
def rebranch (bc : BC) (w : World) (blockHash : Nat) (chainInfo : ChainInfo)
    (fuel : Nat) : Option (World × Except PushError PushResult) :=
  match forkWalk w fuel [] (blockHash, chainInfo) with
  | Option.none => none
  | Option.some (forkChain, ancestor) =>
    if ancestor.2.head.blockNumber < w.state.macroInfo.head.blockNumber then
      some (w, Except.error PushError.InvalidFork)
    else
      match revertLoop bc w fuel w.state.accounts w.state.transactionCache []
          (w.state.headHash, w.state.mainChain) ancestor.1 with
      | Option.none => none
      | Option.some (revertChain, acc1, cache1) =>
        match cacheRefill w cache1 ancestor with
        | Option.none => none
        | Option.some cache2 =>
          match applyForkLoop bc w.state forkChain.reverse
              ancestor.2.head.nextViewNumber w.store acc1 cache2 with
          | Option.none => none
          | Option.some (Except.error badHashes) =>
            let store' := badHashes.foldl removeChainInfo w.store
            some ({ w with store := store' }, Except.error PushError.InvalidFork)
          | Option.some (Except.ok (acc2, store2, cache3)) =>
            match forkChain.getLast? with
            | Option.none => none
            | Option.some lowest =>
              let store3 := revertChain.foldl
                (fun s rb => putChainInfo s rb.1
                  { rb.2 with onMainChain := false, mainChainSuccessor := none })
                store2
              let ancestorInfo :=
                { ancestor.2 with mainChainSuccessor := some lowest.1 }
              let store4 := putChainInfo store3 ancestor.1 ancestorInfo
              let store5 := forkFlags forkChain none store4
              match forkChain.head? with
              | Option.none => none
              | Option.some tip =>
                let tipInfo :=
                  { tip.2 with onMainChain := true, mainChainSuccessor := none }
                let store6 := setHead store5 tip.1
                let newState := { w.state with
                  transactionCache := cache3
                  mainChain := tipInfo
                  headHash := tip.1
                  accounts := acc2 }
                some ({ store := store6, state := newState },
                      Except.ok PushResult.Rebranched)

/-! ### Slashed set query (blockchain.rs lines 2138-2145) -/

/-- Embedding of `Blockchain::slashed_set_at`: look up the chain info at height
`block_number - 1` and return its slashed set.  The subtraction is on a
`u32`, so the call at block number 0 underflows (a debug-build panic,
modelled as the outer `none`); otherwise the inner option is the height
lookup's result. -/
def slashed_set_at (store : ChainStoreM) (blockNumber : Nat) :
    Option (Option SlashedSet) :=
  if blockNumber = 0 then none
  else some ((store.atHeight (blockNumber - 1)).map (fun ci => ci.slashedSet))

/-! ### Block locators (blockchain.rs lines 2481-2530) -/

/-- Context for `get_block_locators`: head hash and height, the chain-store
lookups, and the genesis hash from the network info. -/
structure LocatorCtx where
  headHash : Nat
  height : Nat
  byHash : Nat → Option Block
  atHeight : Nat → Option Block
  genesisHash : Nat

/-- The linear phase of `get_block_locators`: walk up to
`min(10, height)` parents from the head, pushing each parent hash, and
stop early when a block is missing.  Returns the accumulated locators and
the final hash cursor. -/
def locatorLinear (ctx : LocatorCtx) : Nat → Nat → List Nat → List Nat
  | 0, _, acc => acc
  | Nat.succ k, hash, acc =>
    match ctx.byHash hash with
    | Option.none => acc
    | Option.some b => locatorLinear ctx k b.parentHash (acc ++ [b.parentHash])

/-- The exponential-backoff phase of `get_block_locators`: while a block
exists at the cursor height, push its hash, stop once `max_count` is
reached (checked only after pushing), double the step, and stop on
reaching height 0 or underflow.  The fuel argument bounds the recursion;
the height strictly decreases, so any fuel at least the starting height is
enough. -/
def locatorExp (ctx : LocatorCtx) (maxCount : Nat) :
    Nat → Nat → Nat → List Nat → List Nat
  | 0, height, _step, acc =>
    match ctx.atHeight height with
    | Option.none => acc
    | Option.some b => acc ++ [b.hash]
  | Nat.succ f, height, step, acc =>
    match ctx.atHeight height with
    | Option.none => acc
    | Option.some b =>
      let acc' := acc ++ [b.hash]
      if maxCount ≤ acc'.length then acc'
      else if height ≤ step * 2 then acc'
      else locatorExp ctx maxCount f (height - step * 2) (step * 2) acc'

/-- Embedding of `AbstractBlockchain::get_block_locators` for the Albatross blockchain:
head hash, up to ten parents (ignoring `max_count`), then exponential
backoff respecting `max_count`, and finally the genesis hash (popping one
element first if the list is already at `max_count`). -/
def get_block_locators (ctx : LocatorCtx) (maxCount : Nat) : List Nat :=
  let locators := locatorLinear ctx (min 10 ctx.height) ctx.headHash [ctx.headHash]
  let locators := locatorExp ctx maxCount ctx.height (ctx.height - (10 + 2)) 2 locators
  if locators.getLast? = some ctx.genesisHash then locators
  else
    (if maxCount ≤ locators.length then locators.dropLast else locators) ++
      [ctx.genesisHash]

/-! ### Concrete instances used by counterexamples and witnesses -/

/-- A micro block with the given number, view number, parent hash and own
hash (other fields inessential). -/
def microB (number view parent hash : Nat) : Block :=
  { ty := BlockType.Micro
    blockNumber := number
    viewNumber := view
    timestamp := number
    parentHash := parent
    seed := 0
    hash := hash
    parentElectionHash := 0
    stateRoot := 0
    bodyRoot := 0
    txHashes := []
    forkProofs := []
    validators := none }

/-- A macro block with the given number, parent hash and own hash. -/
def macroB (number parent hash : Nat) : Block :=
  { microB number 0 parent hash with ty := BlockType.Macro }

/-- A main-chain chain info for a block. -/
def mainInfo (b : Block) : ChainInfo :=
  { head := b
    onMainChain := true
    mainChainSuccessor := none
    cumTxFees := 0
    slashedSet := ⟨[], [], []⟩ }

/-- An off-main-chain chain info for a block. -/
def sideInfo (b : Block) : ChainInfo :=
  { mainInfo b with onMainChain := false }

/-- C1 instance, the spec's S2 scenario: main chain ..-4-5 with block 5 at
view number 1, competing block 5-prime at view number 0 with the same
parent 4. -/
def c1Block4 : Block := microB 4 0 103 104

/-- C1 instance: the main-chain head, height 5, view number 1. -/
def c1Block5 : Block := microB 5 1 104 105

/-- C1 instance: the competing block, height 5, view number 0, parent 4. -/
def c1Tip : Block := microB 5 0 104 205

/-- C1 instance: the order context of the S2 scenario. -/
def c1Ctx : OrderCtx :=
  { headHash := 105
    headHeight := 5
    byHash := fun h => if h = 104 then some (mainInfo c1Block4) else none
    blockAt := fun n => if n = 5 then some c1Block5 else none }

/-- C5 instance: common fork point (the genesis macro block). -/
def c5G : Block := macroB 0 999 100

/-- C5 instance: chain A, first block (height 1, view 0). -/
def c5A1 : Block := microB 1 0 100 101

/-- C5 instance: chain A, tip (height 2, view 0). -/
def c5A2 : Block := microB 2 0 101 102

/-- C5 instance: chain B, tip (height 1, view 0). -/
def c5B1 : Block := microB 1 0 100 201

/-- C5 instance: the order context with chain A as main chain. -/
def c5CtxA : OrderCtx :=
  { headHash := 102
    headHeight := 2
    byHash := fun h => if h = 100 then some (mainInfo c5G) else none
    blockAt := fun n =>
      if n = 1 then some c5A1 else if n = 2 then some c5A2 else none }

/-- C5 instance: the order context with chain B as main chain; chain A's
blocks are stored off-main. -/
def c5CtxB : OrderCtx :=
  { headHash := 201
    headHeight := 1
    byHash := fun h =>
      if h = 100 then some (mainInfo c5G)
      else if h = 101 then some (sideInfo c5A1) else none
    blockAt := fun n => if n = 1 then some c5B1 else none }

/-- C3/C8 instance: the micro predecessor at height 4, view number 1. -/
def c3Prev : Block := microB 4 1 103 104

/-- C3/C8 instance: verifier context with wall clock 1000 and a
view-change-proof oracle accepting only the proof token 42. -/
def c3Ctx : VerifyCtx :=
  { byHash := fun h => if h = 104 then some (mainInfo c3Prev) else none
    now := 1000
    currentValidators := [1, 2, 3]
    seedVerify := fun _ _ _ => true
    vcpVerify := fun p _ _ _ => p == 42
    electionHeadHash := 0 }

/-- C3 instance: a header at height 5 with view number 1 (equal to the
effective view) and an in-drift timestamp. -/
def c3Header : Block := { microB 5 1 104 105 with timestamp := 1005 }

/-- C8 instance: a header whose timestamp exceeds the wall clock by 11
seconds. -/
def c8Header : Block := { microB 5 1 104 106 with timestamp := 1011 }

/-- C4/C7 instance: a context of external collaborators with total slot
resolution, always-succeeding accounts operations, and always-accepting
reward recipients. -/
def c4BC : BC :=
  { slotAt := fun bn v => some (bn + v, v)
    validatorRegistry := 500
    accCommit := fun a _ _ _ => some (a, 0)
    accRevert := fun a _ _ _ _ => some a
    accHash := fun a => a
    checkInherent := fun _ _ _ => true
    nextValidators := fun _ => []
    macroBodyHash := fun _ _ => 0
    blockReward := fun _ _ => 1000000
    aliasSample := fun _ _ => 0
    slotsFromBlock := fun _ => ⟨[]⟩ }

/-- C4 instance: in-memory state with one validator band covering all 512
slots. -/
def c4State : BCState :=
  { accounts := 0
    transactionCache := ⟨[]⟩
    mainChain := mainInfo c5G
    headHash := 100
    macroInfo := mainInfo c5G
    macroHeadHash := 100
    electionHead := c5G
    electionHeadHash := 100
    currentSlots := some ⟨[⟨512, 77⟩]⟩
    previousSlots := some ⟨[⟨512, 77⟩]⟩ }

/-- C4 instance: the election macro block closing epoch 1 (height 256). -/
def c4Block : Block := macroB 256 0 300

/-- C4 instance: its chain info, whose previous-epoch final slashed set
contains the single slot 0. -/
def c4ChainInfo : ChainInfo :=
  { mainInfo c4Block with slashedSet := ⟨[], [], [0]⟩ }

/-- C9 instance: a store whose main-chain height index holds only
height 2. -/
def c9Store : ChainStoreM :=
  { byHash := fun _ => none
    atHeight := fun n => if n = 2 then some (mainInfo c1Block4) else none
    receipts := fun _ => none
    headPtr := 0 }

/-- C6 instance: an incoming micro block carrying transaction 5. -/
def c6Block : Block := { microB 3 0 102 103 with txHashes := [5] }

/-- C6 instance: a world whose replay cache already contains
transaction 5. -/
def c6World : World :=
  { store := c9Store
    state := { c4State with transactionCache := ⟨[(102, [5])]⟩ } }

/-- C2 instance: the genesis macro block (it is also the macro head). -/
def c2G : Block := { macroB 0 999 100 with stateRoot := 50 }

/-- C2 instance: the main-chain micro block at height 1, view 1. -/
def c2A1 : Block := { microB 1 1 100 101 with stateRoot := 55 }

/-- C2 instance: the fork micro block at height 1, view 2, whose common
ancestor with the main chain is the macro head itself. -/
def c2B1 : Block := { microB 1 2 100 201 with stateRoot := 60 }

/-- C2 instance: collaborators whose accounts revert lands on the genesis
state root and whose commit lands on the fork block's state root. -/
def c2BC : BC :=
  { c4BC with
    accRevert := fun _ _ _ _ _ => some 50
    accCommit := fun _ _ _ _ => some (60, 0) }

/-- C2 instance: the chain store holding the two main-chain blocks and the
receipts of block 1. -/
def c2Store : ChainStoreM :=
  { byHash := fun h =>
      if h = 100 then some (mainInfo c2G)
      else if h = 101 then some (mainInfo c2A1) else none
    atHeight := fun n =>
      if n = 0 then some (mainInfo c2G)
      else if n = 1 then some (mainInfo c2A1) else none
    receipts := fun n => if n = 1 then some 0 else none
    headPtr := 101 }

/-- C2 instance: the in-memory state at head 1 with the macro head at the
genesis block. -/
def c2State : BCState :=
  { accounts := 55
    transactionCache := ⟨[(101, []), (100, [])]⟩
    mainChain := mainInfo c2A1
    headHash := 101
    macroInfo := mainInfo c2G
    macroHeadHash := 100
    electionHead := c2G
    electionHeadHash := 100
    currentSlots := some ⟨[⟨512, 77⟩]⟩
    previousSlots := some ⟨[⟨512, 77⟩]⟩ }

/-- C2 instance: the world in which the rebranch's common ancestor is
exactly the macro head. -/
def c2World : World := { store := c2Store, state := c2State }

/-- C2 instance: the same world with the macro head moved to height 1, so
that the same rebranch now has its common ancestor strictly below the
macro head. -/
def c2WorldB : World :=
  { c2World with state := { c2State with macroInfo := mainInfo c2A1 } }

/-- C10 instance: genesis (height 0, hash 100). -/
def c10G : Block := macroB 0 999 100

/-- C10 instance: the head block at height 1. -/
def c10A1 : Block := microB 1 0 100 101

/-- C10 instance: the locator context of the two-block chain. -/
def c10Ctx : LocatorCtx :=
  { headHash := 101
    height := 1
    byHash := fun h =>
      if h = 101 then some c10A1 else if h = 100 then some c10G else none
    atHeight := fun n =>
      if n = 0 then some c10G else if n = 1 then some c10A1 else none
    genesisHash := 100 }

end Albatross

namespace Albatross

/-! ## Theorems -/

/-! ### Claim C1: fork-choice tie-breaking at the first differing height -/

theorem order_chains_walk_eq (ctx : OrderCtx) (block : Block)
    (prevInfo : ChainInfo) (fuel : Nat) (views : List Nat) (h0 : Nat)
    (hne : block.parentHash ≠ ctx.headHash)
    (hwalk : walkBack ctx fuel [block.viewNumber] (ChainInfo.dummy block) prevInfo =
      some (views, h0)) :
    order_chains ctx block prevInfo fuel =
      match compareLoop ctx h0 (min ctx.headHeight block.blockNumber) views with
      | Option.some ChainOrdering.Unknown =>
        some (if ctx.headHeight < block.blockNumber then ChainOrdering.Better
              else ChainOrdering.Unknown)
      | o => o := by
  rw [order_chains, if_neg hne, hwalk]

theorem compareLoop_firstDiff (ctx : OrderCtx) :
    ∀ (pre : List Nat) (h0 minH v mv : Nat) (rest : List Nat),
    (∀ j, j < pre.length → (ctx.blockAt (h0 + j)).map Block.viewNumber = pre.get? j) →
    (ctx.blockAt (h0 + pre.length)).map Block.viewNumber = some mv →
    h0 + pre.length ≤ minH → mv ≠ v →
    compareLoop ctx h0 minH (pre ++ v :: rest) =
      some (if mv < v then ChainOrdering.Better else ChainOrdering.Inferior) := by
  intro pre
  induction pre with
  | nil =>
    intro h0 minH v mv rest _hties hmv hle hne
    rw [show h0 + [].length = h0 by simp] at hmv
    rcases e : ctx.blockAt h0 with _ | mb
    · rw [e] at hmv; simp at hmv
    · rw [e] at hmv
      have hmb : mb.viewNumber = mv := by simpa using hmv
      simp only [List.nil_append, compareLoop, e, hmb]
      rw [if_neg (show ¬ minH < h0 by simp at hle; omega)]
      rcases Nat.lt_or_ge mv v with hlt | hge
      · rw [if_pos hlt, if_pos hlt]
      · have hvlt : v < mv := by omega
        rw [if_neg (show ¬ mv < v by omega), if_pos hvlt,
          if_neg (show ¬ mv < v by omega)]
  | cons p pre ih =>
    intro h0 minH v mv rest hties hmv hle hne
    have h0ties := hties 0 (by simp)
    rcases e : ctx.blockAt (h0 + 0) with _ | mb
    · rw [e] at h0ties; simp at h0ties
    · rw [e] at h0ties
      have hmb : mb.viewNumber = p := by
        simpa using h0ties
      rw [show h0 + 0 = h0 by omega] at e
      simp only [List.cons_append, compareLoop, e, hmb]
      rw [if_neg (show ¬ minH < h0 by simp only [List.length_cons] at hle; omega)]
      rw [if_neg (show ¬ p < p by omega), if_neg (show ¬ p < p by omega)]
      apply ih (h0 + 1) minH v mv rest
      · intro j hj
        have := hties (j + 1) (by simpa using Nat.succ_lt_succ hj)
        rw [show h0 + (j + 1) = h0 + 1 + j by omega] at this
        simpa using this
      · rw [show h0 + 1 + pre.length = h0 + (p :: pre).length by
          simp only [List.length_cons]; omega]
        exact hmv
      · simp only [List.length_cons] at hle; omega
      · exact hne

/-- Claim C1 (amended): when an incoming block does not extend the head,
`order_chains` decides at the first height after the fork point where the
branch view number and the main-chain view number differ, and the chain
whose block has the HIGHER view number at that height wins: branch higher
than main yields `Better`, branch lower than main yields `Inferior`.  The
hypotheses say that the branch walk yields the view numbers
`pre ++ v :: rest` starting at height `h0`, that the main chain ties with
`pre` on the first `pre.length` heights, and that at height
`h0 + pre.length` (inside the overlap) the main chain has view number
`mv ≠ v`. -/
theorem C1_order_chains_first_diff (ctx : OrderCtx) (block : Block)
    (prevInfo : ChainInfo) (fuel h0 : Nat) (pre rest : List Nat) (v mv : Nat)
    (hne : block.parentHash ≠ ctx.headHash)
    (hwalk : walkBack ctx fuel [block.viewNumber] (ChainInfo.dummy block) prevInfo =
      some (pre ++ v :: rest, h0))
    (hties : ∀ j, j < pre.length →
      (ctx.blockAt (h0 + j)).map Block.viewNumber = pre.get? j)
    (hdiff : (ctx.blockAt (h0 + pre.length)).map Block.viewNumber = some mv)
    (hub : h0 + pre.length ≤ min ctx.headHeight block.blockNumber)
    (hne2 : mv ≠ v) :
    order_chains ctx block prevInfo fuel =
      some (if mv < v then ChainOrdering.Better else ChainOrdering.Inferior) := by
  rw [order_chains_walk_eq ctx block prevInfo fuel (pre ++ v :: rest) h0 hne hwalk]
  rw [compareLoop_firstDiff ctx pre h0 (min ctx.headHeight block.blockNumber)
    v mv rest hties hdiff hub hne2]
  rcases Nat.lt_or_ge mv v with hlt | hge
  · rw [if_pos hlt]
  · rw [if_neg (show ¬ mv < v by omega)]

/-- Claim C1 witness: the amended theorem applied to the concrete S2-style
scenario (branch view number 0 against main-chain view number 1 at height
5) classifies the competing block `Inferior`. -/
theorem C1_witness :
    order_chains c1Ctx c1Tip (mainInfo c1Block4) 5 = some ChainOrdering.Inferior := by
  have h := C1_order_chains_first_diff c1Ctx c1Tip (mainInfo c1Block4) 5 5
    [] [] 0 1 (by decide) (by decide)
    (fun j hj => absurd hj (by simp)) (by decide) (by decide) (by decide)
  simpa using h

/-- Claim C1 counterexample: in the S2 scenario of the spec (head at view
number 1, competing same-height block at view number 0 with the same
parent), `order_chains` returns `Inferior`, not `Better` as the claim
states; the lower view number loses. -/
theorem C1_counterexample :
    order_chains c1Ctx c1Tip (mainInfo c1Block4) 5 = some ChainOrdering.Inferior ∧
    some ChainOrdering.Inferior ≠ some ChainOrdering.Better := by
  constructor
  · decide
  · decide

/-! ### Claim C5: relational properties of `order_chains` -/

theorem get?_take_lt : ∀ (l : List Nat) (n j : Nat), j < n →
    (l.take n).get? j = l.get? j := by
  intro l
  induction l with
  | nil => intro n j _; simp
  | cons x xs ih =>
    intro n j hj
    cases n with
    | zero => omega
    | succ n =>
      cases j with
      | zero => simp
      | succ j => simpa using ih n j (by omega)

theorem cmpViews_isSome : ∀ (ms vs : List Nat), ms.length ≤ vs.length →
    (cmpViews ms vs).isSome = true := by
  intro ms
  induction ms with
  | nil => intro vs _; simp [cmpViews]
  | cons m ms ih =>
    intro vs hlen
    cases vs with
    | nil => simp at hlen
    | cons v vs =>
      simp only [cmpViews]
      rcases Nat.lt_trichotomy m v with h | h | h
      · rw [if_pos h]; rfl
      · rw [if_neg (by omega), if_neg (by omega)]
        exact ih vs (by simpa using hlen)
      · rw [if_neg (by omega), if_pos h]; rfl

theorem cmpViews_prefix_tie : ∀ (ms vs : List Nat), ms = vs.take ms.length →
    cmpViews ms vs = some ChainOrdering.Unknown := by
  intro ms
  induction ms with
  | nil => intro vs _; rfl
  | cons m ms ih =>
    intro vs h
    cases vs with
    | nil => simp at h
    | cons v vs =>
      simp only [List.length_cons, List.take_succ_cons, List.cons.injEq] at h
      simp only [cmpViews, h.1]
      rw [if_neg (by omega), if_neg (by omega)]
      exact ih vs h.2

theorem cmpViews_swap : ∀ (la lb : List Nat),
    (cmpViews (la.take (min la.length lb.length)) lb = some ChainOrdering.Inferior ↔
     cmpViews (lb.take (min lb.length la.length)) la = some ChainOrdering.Better) := by
  intro la
  induction la with
  | nil =>
    intro lb
    simp [cmpViews]
  | cons x la ih =>
    intro lb
    cases lb with
    | nil => simp [cmpViews]
    | cons y lb =>
      have hmin1 : min (x :: la).length (y :: lb).length = min la.length lb.length + 1 := by
        simp [Nat.succ_min_succ]
      have hmin2 : min (y :: lb).length (x :: la).length = min lb.length la.length + 1 := by
        simp [Nat.succ_min_succ]
      rw [hmin1, hmin2, List.take_succ_cons, List.take_succ_cons]
      simp only [cmpViews]
      rcases Nat.lt_trichotomy x y with h | h | h
      · rw [if_pos h, if_neg (by omega), if_pos h]
        constructor
        · intro hc; exact absurd hc (by decide)
        · intro hc; exact absurd hc (by decide)
      · subst h
        rw [if_neg (by omega), if_neg (by omega), if_neg (by omega), if_neg (by omega)]
        exact ih lb
      · rw [if_neg (by omega), if_pos h, if_pos h]
        constructor
        · intro _; rfl
        · intro _; rfl

theorem compareLoop_eq_cmpViews (ctx : OrderCtx) :
    ∀ (lm : List Nat) (h0 minH : Nat) (vs : List Nat),
    minH + 1 = h0 + lm.length →
    (∀ j, j < lm.length → (ctx.blockAt (h0 + j)).map Block.viewNumber = lm.get? j) →
    compareLoop ctx h0 minH vs = cmpViews lm vs := by
  intro lm
  induction lm with
  | nil =>
    intro h0 minH vs hlen _hmain
    have hlt : minH < h0 := by simp at hlen; omega
    cases vs with
    | nil => simp [compareLoop, cmpViews, hlt]
    | cons v rest => simp [compareLoop, cmpViews, hlt]
  | cons m lm ih =>
    intro h0 minH vs hlen hmain
    have hge : ¬ minH < h0 := by simp at hlen; omega
    have h0main := hmain 0 (by simp)
    rcases e : ctx.blockAt (h0 + 0) with _ | mb
    · rw [e] at h0main; simp at h0main
    · rw [e] at h0main
      have hmb : mb.viewNumber = m := by simpa using h0main
      rw [show h0 + 0 = h0 by omega] at e
      cases vs with
      | nil => simp [compareLoop, cmpViews, hge]
      | cons v rest =>
        simp only [compareLoop, cmpViews, e, hmb]
        rw [if_neg hge]
        rcases Nat.lt_trichotomy m v with h | h | h
        · rw [if_pos h, if_pos h]
        · subst h
          rw [if_neg (by omega), if_neg (by omega), if_neg (by omega), if_neg (by omega)]
          apply ih (h0 + 1) minH rest
          · simp at hlen ⊢; omega
          · intro j hj
            have := hmain (j + 1) (by simpa using Nat.succ_lt_succ hj)
            rw [show h0 + (j + 1) = h0 + 1 + j by omega] at this
            simpa using this
        · rw [if_neg (by omega), if_pos h, if_neg (by omega), if_pos h]

theorem order_chains_eq_orderPure (ctx : OrderCtx) (tip : Block)
    (prev : ChainInfo) (fuel h0 : Nat) (la lb : List Nat)
    (hne : tip.parentHash ≠ ctx.headHash)
    (hwalk : walkBack ctx fuel [tip.viewNumber] (ChainInfo.dummy tip) prev =
      some (lb, h0))
    (_ha : 0 < la.length) (_hb : 0 < lb.length)
    (hhead : ctx.headHeight + 1 = h0 + la.length)
    (htip : tip.blockNumber + 1 = h0 + lb.length)
    (hmain : ∀ j, j < la.length →
      (ctx.blockAt (h0 + j)).map Block.viewNumber = la.get? j) :
    order_chains ctx tip prev fuel = orderPure la lb := by
  rw [order_chains_walk_eq ctx tip prev fuel lb h0 hne hwalk]
  have hlink := compareLoop_eq_cmpViews ctx (la.take (min la.length lb.length))
    h0 (min ctx.headHeight tip.blockNumber) lb
    (by rw [List.length_take]; omega)
    (by
      intro j hj
      rw [List.length_take] at hj
      rw [get?_take_lt la (min la.length lb.length) j (by omega)]
      exact hmain j (by omega))
  rw [hlink, orderPure]
  rcases hc : cmpViews (la.take (min la.length lb.length)) lb with _ | o
  · rfl
  · cases o with
    | Unknown =>
      have : (ctx.headHeight < tip.blockNumber) = (la.length < lb.length) := by
        simp only [eq_iff_iff]
        omega
      simp only [this]
    | Extend => rfl
    | Better => rfl
    | Inferior => rfl

theorem orderPure_isSome (la lb : List Nat) (hb : min la.length lb.length ≤ lb.length) :
    (orderPure la lb).isSome = true := by
  rw [orderPure]
  have h := cmpViews_isSome (la.take (min la.length lb.length)) lb
    (by rw [List.length_take]; omega)
  rcases hc : cmpViews (la.take (min la.length lb.length)) lb with _ | o
  · rw [hc] at h; simp at h
  · cases o <;> rfl

theorem orderPure_inferior_better (la lb : List Nat)
    (h : orderPure la lb = some ChainOrdering.Inferior) :
    orderPure lb la = some ChainOrdering.Better := by
  rw [orderPure] at h
  rcases hc : cmpViews (la.take (min la.length lb.length)) lb with _ | o
  · rw [hc] at h; simp at h
  · rw [hc] at h
    cases o with
    | Unknown =>
      by_cases hl : la.length < lb.length <;> simp [hl] at h
    | Extend => simp at h
    | Better => simp at h
    | Inferior =>
      have := (cmpViews_swap la lb).mp hc
      rw [orderPure, this]

theorem orderPure_tie (la lb : List Nat)
    (h : la.take (min la.length lb.length) = lb.take (min la.length lb.length)) :
    orderPure la lb =
      some (if la.length < lb.length then ChainOrdering.Better
            else ChainOrdering.Unknown) := by
  rw [orderPure]
  have htie : cmpViews (la.take (min la.length lb.length)) lb =
      some ChainOrdering.Unknown := by
    apply cmpViews_prefix_tie
    rw [List.length_take]
    rw [h]
    congr 1
    omega
  rw [htie]

/-- Claim C5 (amended): on a pair of competing chains sharing the fork
point at height `h0` (main-chain view numbers `la` above the fork on A's
side, `lb` on B's side, mutually consistent contexts), `order_chains` is
total (returns a classification, no panic) in both directions;
antisymmetry holds in the direction `Inferior` implies `Better` (in both
orientations); and when all overlapping heights tie on view number, the
side with the shorter chain classifies the longer incoming chain `Better`
while the side with the longer chain answers `Unknown` (so the full
`Inferior iff Better` equivalence of the claim fails exactly there), and
equal-length ties give `Unknown` on both sides. -/
theorem C5_order_chains_relational (ctxA ctxB : OrderCtx) (tipA tipB : Block)
    (prevA prevB : ChainInfo) (fuelA fuelB h0 : Nat) (la lb : List Nat)
    (hneA : tipB.parentHash ≠ ctxA.headHash)
    (hneB : tipA.parentHash ≠ ctxB.headHash)
    (hwalkA : walkBack ctxA fuelA [tipB.viewNumber] (ChainInfo.dummy tipB) prevB =
      some (lb, h0))
    (hwalkB : walkBack ctxB fuelB [tipA.viewNumber] (ChainInfo.dummy tipA) prevA =
      some (la, h0))
    (ha : 0 < la.length) (hb : 0 < lb.length)
    (hheadA : ctxA.headHeight + 1 = h0 + la.length)
    (hheadB : ctxB.headHeight + 1 = h0 + lb.length)
    (htipA : tipA.blockNumber + 1 = h0 + la.length)
    (htipB : tipB.blockNumber + 1 = h0 + lb.length)
    (hmainA : ∀ j, j < la.length →
      (ctxA.blockAt (h0 + j)).map Block.viewNumber = la.get? j)
    (hmainB : ∀ j, j < lb.length →
      (ctxB.blockAt (h0 + j)).map Block.viewNumber = lb.get? j) :
    (order_chains ctxA tipB prevB fuelA).isSome = true ∧
    (order_chains ctxB tipA prevA fuelB).isSome = true ∧
    (order_chains ctxA tipB prevB fuelA = some ChainOrdering.Inferior →
      order_chains ctxB tipA prevA fuelB = some ChainOrdering.Better) ∧
    (order_chains ctxB tipA prevA fuelB = some ChainOrdering.Inferior →
      order_chains ctxA tipB prevB fuelA = some ChainOrdering.Better) ∧
    (la.take (min la.length lb.length) = lb.take (min la.length lb.length) →
      order_chains ctxA tipB prevB fuelA =
        some (if la.length < lb.length then ChainOrdering.Better
              else ChainOrdering.Unknown) ∧
      order_chains ctxB tipA prevA fuelB =
        some (if lb.length < la.length then ChainOrdering.Better
              else ChainOrdering.Unknown)) := by
  have e1 := order_chains_eq_orderPure ctxA tipB prevB fuelA h0 la lb
    hneA hwalkA ha hb hheadA htipB hmainA
  have e2 := order_chains_eq_orderPure ctxB tipA prevA fuelB h0 lb la
    hneB hwalkB hb ha hheadB htipA hmainB
  refine ⟨?_, ?_, ?_, ?_, ?_⟩
  · rw [e1]; exact orderPure_isSome la lb (by omega)
  · rw [e2]; exact orderPure_isSome lb la (by omega)
  · intro h; rw [e2]; exact orderPure_inferior_better la lb (e1 ▸ h)
  · intro h; rw [e1]; exact orderPure_inferior_better lb la (e2 ▸ h)
  · intro htie
    constructor
    · rw [e1]; exact orderPure_tie la lb htie
    · rw [e2]
      have htie' : lb.take (min lb.length la.length) =
          la.take (min lb.length la.length) := by
        rw [show min lb.length la.length = min la.length lb.length by omega]
        exact htie.symm
      exact orderPure_tie lb la htie'

/-- Claim C5 witness: the amended theorem applied to the concrete pair of
all-tie chains (A of length 2, B of length 1 above the common fork point)
gives `Unknown` from A's side and `Better` from B's side. -/
theorem C5_witness :
    order_chains c5CtxA c5B1 (mainInfo c5G) 5 = some ChainOrdering.Unknown ∧
    order_chains c5CtxB c5A2 (sideInfo c5A1) 5 = some ChainOrdering.Better := by
  have h := (C5_order_chains_relational c5CtxA c5CtxB c5A2 c5B1
    (sideInfo c5A1) (mainInfo c5G) 5 5 1 [0, 0] [0]
    (by decide) (by decide) (by decide) (by decide) (by decide) (by decide)
    (by decide) (by decide) (by decide) (by decide) (by decide)
    (by decide)).2.2.2.2 (by decide)
  simpa using h

/-- Claim C5 counterexample: the claimed equivalence fails on an all-tie
pair of chains of different lengths: from chain B's side the longer chain A
is `Better`, but from chain A's side chain B is `Unknown`, not `Inferior`. -/
theorem C5_counterexample :
    order_chains c5CtxB c5A2 (sideInfo c5A1) 5 = some ChainOrdering.Better ∧
    order_chains c5CtxA c5B1 (mainInfo c5G) 5 ≠ some ChainOrdering.Inferior := by
  constructor
  · decide
  · decide

/-! ### Claims C3 and C8: `verify_block_header` -/

theorem verify_header_tail_ne_future (ctx : VerifyCtx) (header : Block)
    (prevSeed owner : Nat) :
    verify_header_tail ctx header prevSeed owner ≠
      Except.error (PushError.InvalidBlock BlockError.FromTheFuture) := by
  rw [verify_header_tail]
  split
  · simp
  · split
    · split <;> simp
    · simp

theorem viewStage_ne_future (ctx : VerifyCtx) (header : Block)
    (vcp : OptionalCheck Nat) (owner prevSeed v : Nat) :
    (if header.viewNumber < v then
        Except.error (PushError.InvalidBlock BlockError.InvalidViewNumber)
      else if v < header.viewNumber then
        match vcp with
        | OptionalCheck.None =>
          Except.error (PushError.InvalidBlock BlockError.NoViewChangeProof)
        | OptionalCheck.Some p =>
          if ctx.vcpVerify p ⟨header.blockNumber, header.viewNumber, prevSeed⟩
              ctx.currentValidators TWO_THIRD_SLOTS = false then
            Except.error (PushError.InvalidBlock BlockError.InvalidJustification)
          else verify_header_tail ctx header prevSeed owner
        | OptionalCheck.Skip => verify_header_tail ctx header prevSeed owner
      else
        if vcp.isSome = true then
          Except.error (PushError.InvalidBlock BlockError.InvalidJustification)
        else verify_header_tail ctx header prevSeed owner) ≠
      Except.error (PushError.InvalidBlock BlockError.FromTheFuture) := by
  split
  · simp
  · split
    · cases vcp with
      | None => simp
      | Some p =>
        dsimp only
        split
        · simp
        · exact verify_header_tail_ne_future ctx header prevSeed owner
      | Skip => exact verify_header_tail_ne_future ctx header prevSeed owner
    · split
      · simp
      · exact verify_header_tail_ne_future ctx header prevSeed owner

/-- Claim C3: the view-number rules of `verify_block_header` for a micro
header whose predecessor checks pass, with the effective view defined as 0
when the predecessor is a macro block (the hypothesis `hwf` ties the
predecessor's type to its height, which is what the code tests) and the
predecessor's view number otherwise: (a) a lower view number is
`InvalidViewNumber`; (b) a higher view number with no proof is
`NoViewChangeProof`, and with a proof rejected by the BLS oracle over the
message built from the header's block number, the header's view number and
the predecessor's seed, under the current validators at the
TWO_THIRD_SLOTS threshold, is `InvalidJustification`; (c) an equal view
number with a proof present is `InvalidJustification`. -/
theorem C3_view_number_rules (ctx : VerifyCtx) (header : Block)
    (vcp : OptionalCheck Nat) (owner : Nat) (prevInfo : ChainInfo)
    (hprev : ctx.byHash header.parentHash = some prevInfo)
    (hty : get_next_block_type prevInfo.head.blockNumber = header.ty)
    (_hmicro : header.ty = BlockType.Micro)
    (hnum : prevInfo.head.blockNumber + 1 = header.blockNumber)
    (hts : prevInfo.head.timestamp < header.timestamp)
    (hdrift : header.timestamp - ctx.now ≤ TIMESTAMP_MAX_DRIFT)
    (hwf : (prevInfo.head.ty = BlockType.Macro) ↔
      is_macro_block_at prevInfo.head.blockNumber = true) :
    (header.viewNumber < effectiveView prevInfo.head →
      verify_block_header ctx header vcp owner =
        Except.error (PushError.InvalidBlock BlockError.InvalidViewNumber)) ∧
    (effectiveView prevInfo.head < header.viewNumber →
      vcp = OptionalCheck.None →
      verify_block_header ctx header vcp owner =
        Except.error (PushError.InvalidBlock BlockError.NoViewChangeProof)) ∧
    (∀ p, effectiveView prevInfo.head < header.viewNumber →
      vcp = OptionalCheck.Some p →
      ctx.vcpVerify p ⟨header.blockNumber, header.viewNumber, prevInfo.head.seed⟩
        ctx.currentValidators TWO_THIRD_SLOTS = false →
      verify_block_header ctx header vcp owner =
        Except.error (PushError.InvalidBlock BlockError.InvalidJustification)) ∧
    (∀ p, header.viewNumber = effectiveView prevInfo.head →
      vcp = OptionalCheck.Some p →
      verify_block_header ctx header vcp owner =
        Except.error (PushError.InvalidBlock BlockError.InvalidJustification)) := by
  have h1 : ¬ get_next_block_type prevInfo.head.blockNumber ≠ header.ty :=
    fun h => h hty
  have h2 : ¬ prevInfo.head.blockNumber + 1 ≠ header.blockNumber :=
    fun h => h hnum
  have h3 : ¬ header.timestamp ≤ prevInfo.head.timestamp := by omega
  have h4 : ¬ TIMESTAMP_MAX_DRIFT < header.timestamp - ctx.now := by omega
  have effEq : (if is_macro_block_at (header.blockNumber - 1) = true then 0
      else prevInfo.head.viewNumber) = effectiveView prevInfo.head := by
    have hbn : header.blockNumber - 1 = prevInfo.head.blockNumber := by omega
    rw [hbn, effectiveView]
    rcases htyp : prevInfo.head.ty
    · rw [if_pos (hwf.mp htyp), if_pos rfl]
    · have hmf : ¬ is_macro_block_at prevInfo.head.blockNumber = true := by
        intro h
        have := hwf.mpr h
        rw [htyp] at this
        exact absurd this (by decide)
      rw [if_neg hmf, if_neg (by simp [htyp])]
  refine ⟨?_, ?_, ?_, ?_⟩
  · intro hlt
    simp only [verify_block_header, hprev]
    rw [if_neg h1, if_neg h2, if_neg h3, if_neg h4, effEq, if_pos hlt]
  · intro hgt hnone
    subst hnone
    simp only [verify_block_header, hprev]
    rw [if_neg h1, if_neg h2, if_neg h3, if_neg h4, effEq,
      if_neg (show ¬ header.viewNumber < effectiveView prevInfo.head by omega),
      if_pos hgt]
  · intro p hgt hsome hverify
    subst hsome
    simp only [verify_block_header, hprev]
    rw [if_neg h1, if_neg h2, if_neg h3, if_neg h4, effEq,
      if_neg (show ¬ header.viewNumber < effectiveView prevInfo.head by omega),
      if_pos hgt]
    rw [if_pos hverify]
  · intro p heq hsome
    subst hsome
    simp only [verify_block_header, hprev]
    rw [if_neg h1, if_neg h2, if_neg h3, if_neg h4, effEq,
      if_neg (show ¬ header.viewNumber < effectiveView prevInfo.head by omega),
      if_neg (show ¬ effectiveView prevInfo.head < header.viewNumber by omega)]
    rw [if_pos (show OptionalCheck.isSome (OptionalCheck.Some p) = true from rfl)]

/-- Claim C3 witness: the theorem applied to a concrete micro header with
view number equal to the effective view and a view-change proof attached:
the header is rejected with `InvalidJustification`. -/
theorem C3_witness :
    verify_block_header c3Ctx c3Header (OptionalCheck.Some 7) 0 =
      Except.error (PushError.InvalidBlock BlockError.InvalidJustification) := by
  exact (C3_view_number_rules c3Ctx c3Header (OptionalCheck.Some 7) 0
    (mainInfo c3Prev) (by decide) (by decide) (by decide) (by decide)
    (by decide) (by decide) (by decide)).2.2.2 7 (by decide) rfl

/-- Claim C8: for a header whose predecessor checks pass,
`verify_block_header` returns `FromTheFuture` exactly when the header's
timestamp exceeds the wall clock by more than TIMESTAMP_MAX_DRIFT (the
Rust saturating subtraction is Nat subtraction); if the drift is within
the bound, whatever else happens, the error is never `FromTheFuture`. -/
theorem C8_timestamp_drift (ctx : VerifyCtx) (header : Block)
    (vcp : OptionalCheck Nat) (owner : Nat) (prevInfo : ChainInfo)
    (hprev : ctx.byHash header.parentHash = some prevInfo)
    (hty : get_next_block_type prevInfo.head.blockNumber = header.ty)
    (hnum : prevInfo.head.blockNumber + 1 = header.blockNumber)
    (hts : prevInfo.head.timestamp < header.timestamp) :
    (TIMESTAMP_MAX_DRIFT < header.timestamp - ctx.now →
      verify_block_header ctx header vcp owner =
        Except.error (PushError.InvalidBlock BlockError.FromTheFuture)) ∧
    (header.timestamp - ctx.now ≤ TIMESTAMP_MAX_DRIFT →
      verify_block_header ctx header vcp owner ≠
        Except.error (PushError.InvalidBlock BlockError.FromTheFuture)) := by
  have h1 : ¬ get_next_block_type prevInfo.head.blockNumber ≠ header.ty :=
    fun h => h hty
  have h2 : ¬ prevInfo.head.blockNumber + 1 ≠ header.blockNumber :=
    fun h => h hnum
  have h3 : ¬ header.timestamp ≤ prevInfo.head.timestamp := by omega
  constructor
  · intro hdrift
    simp only [verify_block_header, hprev]
    rw [if_neg h1, if_neg h2, if_neg h3, if_pos hdrift]
  · intro hdrift
    have h4 : ¬ TIMESTAMP_MAX_DRIFT < header.timestamp - ctx.now := by omega
    simp only [verify_block_header, hprev]
    rw [if_neg h1, if_neg h2, if_neg h3, if_neg h4]
    exact viewStage_ne_future ctx header vcp owner prevInfo.head.seed _

/-- Claim C8 witness: the theorem applied to a concrete header 11 seconds
ahead of the wall clock (drift bound 10): rejected with `FromTheFuture`. -/
theorem C8_witness :
    verify_block_header c3Ctx c8Header OptionalCheck.Skip 0 =
      Except.error (PushError.InvalidBlock BlockError.FromTheFuture) := by
  exact (C8_timestamp_drift c3Ctx c8Header OptionalCheck.Skip 0
    (mainInfo c3Prev) (by decide) (by decide) (by decide) (by decide)).1
    (by decide)

/-! ### Claim C7: the slash-inherent generator -/

theorem optMap_eq_map {α β : Type} (f : α → Option β) (g : α → β) :
    ∀ (l : List α), (∀ a, a ∈ l → f a = some (g a)) →
    optMap f l = some (l.map g) := by
  intro l
  induction l with
  | nil => intro _; rfl
  | cons a rest ih =>
    intro h
    have ha := h a (by simp)
    have hrest := ih (fun x hx => h x (by simp [hx]))
    simp only [optMap, ha, hrest, List.map_cons]

/-- Claim C7: when slot resolution succeeds everywhere,
`create_slash_inherents` returns exactly one slash inherent per fork
proof, in the order of the fork-proof list, followed by exactly one slash
inherent per skipped view number in ascending order over
`[first_view_number, last_view_number)`, each targeted at the validator
registry and carrying the slashed slot of the owner at the corresponding
(block number, view) position. -/
theorem C7_create_slash_inherents_shape (bc : BC) (fps : List ForkProof)
    (vcOpt : Option ViewChanges)
    (htotal : ∀ bn v, (bc.slotAt bn v).isSome = true) :
    create_slash_inherents bc fps vcOpt =
      some (fps.map (fun fp => slashInherentAt bc fp.header1.blockNumber
              fp.header1.viewNumber fp.header1.blockNumber) ++
        (match vcOpt with
         | Option.none => []
         | Option.some vc =>
           (viewRange vc.firstViewNumber vc.lastViewNumber).map
             (fun v => slashInherentAt bc vc.blockNumber v vc.blockNumber))) := by
  have hslot : ∀ bn v, ∃ p s, bc.slotAt bn v = some (p, s) := by
    intro bn v
    rcases e : bc.slotAt bn v with _ | ps
    · have := htotal bn v; rw [e] at this; simp at this
    · obtain ⟨p, s⟩ := ps; exact ⟨p, s, rfl⟩
  have hf : ∀ fp : ForkProof, inherent_from_fork_proof bc fp =
      some (slashInherentAt bc fp.header1.blockNumber fp.header1.viewNumber
        fp.header1.blockNumber) := by
    intro fp
    obtain ⟨p, s, e⟩ := hslot fp.header1.blockNumber fp.header1.viewNumber
    simp [inherent_from_fork_proof, slashInherentAt, e]
  have h1 := optMap_eq_map (inherent_from_fork_proof bc)
    (fun fp => slashInherentAt bc fp.header1.blockNumber fp.header1.viewNumber
      fp.header1.blockNumber) fps (fun fp _ => hf fp)
  simp only [create_slash_inherents, h1]
  cases vcOpt with
  | none => simp
  | some vc =>
    have hv : inherents_from_view_changes bc vc =
        some ((viewRange vc.firstViewNumber vc.lastViewNumber).map
          (fun v => slashInherentAt bc vc.blockNumber v vc.blockNumber)) := by
      rw [inherents_from_view_changes]
      apply optMap_eq_map
      intro v _
      obtain ⟨p, s, e⟩ := hslot vc.blockNumber v
      simp [slashInherentAt, e]
    simp only [hv]

/-- Claim C7 witness: the theorem applied to one fork proof at (3, 1) and
the view-change range [1, 3) at height 5, with a concrete total slot
oracle. -/
theorem C7_witness :
    create_slash_inherents c4BC [⟨⟨3, 1⟩⟩] (some ⟨5, 1, 3⟩) =
      some [⟨InherentType.Slash, 500, 0, some ⟨1, 4, 3⟩⟩,
            ⟨InherentType.Slash, 500, 0, some ⟨1, 6, 5⟩⟩,
            ⟨InherentType.Slash, 500, 0, some ⟨2, 7, 5⟩⟩] := by
  have h := C7_create_slash_inherents_shape c4BC [⟨⟨3, 1⟩⟩] (some ⟨5, 1, 3⟩)
    (fun bn v => rfl)
  rw [h]
  decide

/-! ### Claim C9: `slashed_set_at` -/

/-- Claim C9: `slashed_set_at` computes `block_number - 1` on an unsigned
integer before the height lookup, so the call at block number 0 underflows
(panics, the outer `none`) instead of returning the inner `none`; for
every block number at least 1 the call completes and returns the inner
`none` exactly when the main-chain height index has no entry at
`block_number - 1`. -/
theorem C9_slashed_set_at_domain (store : ChainStoreM) :
    slashed_set_at store 0 = none ∧
    ∀ bn, 1 ≤ bn →
      (slashed_set_at store bn).isSome = true ∧
      (slashed_set_at store bn = some none ↔ store.atHeight (bn - 1) = none) := by
  constructor
  · rfl
  · intro bn hbn
    constructor
    · rw [slashed_set_at, if_neg (by omega)]; rfl
    · rw [slashed_set_at, if_neg (by omega)]
      rcases e : store.atHeight (bn - 1) with _ | ci <;> simp [e]

/-- Claim C9 witness: the theorem applied to a concrete store whose height
index holds only height 2: block number 0 panics, block number 3 returns a
value, block number 4 returns the inner `none`. -/
theorem C9_witness :
    slashed_set_at c9Store 0 = none ∧
    (slashed_set_at c9Store 3).isSome = true ∧
    slashed_set_at c9Store 4 = some none := by
  refine ⟨(C9_slashed_set_at_domain c9Store).1,
    ((C9_slashed_set_at_domain c9Store).2 3 (by omega)).1,
    ?_⟩
  exact (((C9_slashed_set_at_domain c9Store).2 4 (by omega)).2).mpr (by decide)

/-! ### Claim C4: epoch-finalization rewards -/

set_option maxRecDepth 8000 in
/-- Claim C4 evaluation at the failing input: finalizing epoch 1 with one
validator band covering all 512 slots, an always-accepting reward account,
and the final slashed set containing the single slot 0, the source panics
(`none`): the reward loop peeks the slashed-set iterator without ever
advancing it, so `assert!(num_eligible_slots > 0)` fails as soon as any
slashed slot lies inside a band.  The claimed reward-sum and burn-pot
properties are therefore unreachable whenever the slashed set is
non-empty. -/
theorem C4_finalize_panics_on_slashed_slot :
    finalize_previous_epoch c4BC c4State c4ChainInfo = none ∧
    c4ChainInfo.slashedSet.prevEpochState = [0] ∧
    epoch_at c4ChainInfo.head.blockNumber - 1 = 1 := by
  refine ⟨rfl, rfl, rfl⟩

/-! ### Claim C6: duplicate transactions abort `extend` unchanged -/

/-- Claim C6: when any transaction of the incoming block is already in the
replay cache, `extend` returns `DuplicateTransaction` and the write
transaction is abandoned before anything is touched: the returned world is
exactly the input world, so the accounts state, the chain store, the
replay cache and the head are unchanged. -/
theorem C6_extend_duplicate (bc : BC) (w : World) (blockHash : Nat)
    (chainInfo prevInfo : ChainInfo)
    (hdup : TxCache.containsAny w.state.transactionCache chainInfo.head = true) :
    extend bc w blockHash chainInfo prevInfo =
      some (w, Except.error PushError.DuplicateTransaction) := by
  rw [extend, if_pos hdup]

/-- Claim C6 witness: the theorem applied to a concrete world whose cache
already holds transaction 5 and a block re-carrying transaction 5. -/
theorem C6_witness :
    extend c4BC c6World 103 (sideInfo c6Block) (mainInfo (microB 2 0 101 102)) =
      some (c6World, Except.error PushError.DuplicateTransaction) := by
  exact C6_extend_duplicate c4BC c6World 103 (sideInfo c6Block)
    (mainInfo (microB 2 0 101 102)) (by decide)

/-! ### Claim C2: rebranch and the macro head -/

/-- Claim C2 (amended): `rebranch` refuses with `InvalidFork` exactly the
rebranches whose common ancestor lies strictly BELOW the current macro
head; a common ancestor at the macro head itself (or above it) passes the
guard, which suffices to protect macro finality because the revert walk
then never crosses the macro head (and a macro block on the walk is a
fatal panic, never a revert).  First conjunct: if the fork walk finds the
ancestor strictly below the macro head, the result is `InvalidFork` with
the world unchanged.  Second conjunct: any successful rebranch had its
ancestor at or above the macro head. -/
theorem C2_rebranch_macro_guard (bc : BC) (w : World) (blockHash : Nat)
    (ci : ChainInfo) (fuel : Nat) :
    (∀ forkChain ancestor,
      forkWalk w fuel [] (blockHash, ci) = some (forkChain, ancestor) →
      ancestor.2.head.blockNumber < w.state.macroInfo.head.blockNumber →
      rebranch bc w blockHash ci fuel =
        some (w, Except.error PushError.InvalidFork)) ∧
    (∀ w' r, rebranch bc w blockHash ci fuel = some (w', Except.ok r) →
      ∃ forkChain ancestor,
        forkWalk w fuel [] (blockHash, ci) = some (forkChain, ancestor) ∧
        w.state.macroInfo.head.blockNumber ≤ ancestor.2.head.blockNumber) := by
  constructor
  · intro fc anc hfw hlt
    simp only [rebranch, hfw]
    rw [if_pos hlt]
  · intro w' r h
    rcases hfw : forkWalk w fuel [] (blockHash, ci) with _ | p
    · rw [rebranch] at h
      rw [hfw] at h
      exact absurd h (by simp)
    · obtain ⟨fc, anc⟩ := p
      by_cases hlt : anc.2.head.blockNumber < w.state.macroInfo.head.blockNumber
      · simp only [rebranch, hfw, if_pos hlt] at h
        exact absurd h (by simp)
      · exact ⟨fc, anc, rfl, by omega⟩

/-- Claim C2 witness: the amended theorem applied to a concrete world
whose macro head sits at height 1 while the fork's common ancestor is the
genesis block at height 0: `InvalidFork`, world unchanged. -/
theorem C2_witness :
    rebranch c2BC c2WorldB 201 (sideInfo c2B1) 5 =
      some (c2WorldB, Except.error PushError.InvalidFork) := by
  exact (C2_rebranch_macro_guard c2BC c2WorldB 201 (sideInfo c2B1) 5).1
    [(201, sideInfo c2B1)] (100, mainInfo c2G) (by decide) (by decide)

/-- Claim C2 counterexample: the claim as stated ("rebranch succeeds only
when the common ancestor lies strictly after the current macro head")
fails: here the common ancestor IS the macro head (both at height 0), yet
the rebranch completes with `Rebranched` instead of `InvalidFork`. -/
theorem C2_counterexample :
    (∃ w', rebranch c2BC c2World 201 (sideInfo c2B1) 5 =
      some (w', Except.ok PushResult.Rebranched)) ∧
    (forkWalk c2World 5 [] (201, sideInfo c2B1)).map
      (fun p => p.2.2.head.blockNumber) = some 0 ∧
    c2World.state.macroInfo.head.blockNumber = 0 := by
  refine ⟨⟨_, rfl⟩, rfl, rfl⟩

/-! ### Claim C10: block locators -/

theorem getLast?_append_single (l : List Nat) (a : Nat) :
    (l ++ [a]).getLast? = some a := by
  rw [List.getLast?_append_cons]
  rfl

theorem locatorLinear_length (ctx : LocatorCtx) :
    ∀ (k : Nat) (hash : Nat) (acc : List Nat),
    (locatorLinear ctx k hash acc).length ≤ acc.length + k := by
  intro k
  induction k with
  | zero => intro hash acc; simp [locatorLinear]
  | succ k ih =>
    intro hash acc
    rw [locatorLinear]
    rcases e : ctx.byHash hash with _ | b
    · simp
    · calc (locatorLinear ctx k b.parentHash (acc ++ [b.parentHash])).length
          ≤ (acc ++ [b.parentHash]).length + k := ih b.parentHash (acc ++ [b.parentHash])
        _ ≤ acc.length + (k + 1) := by simp; omega

theorem locatorExp_length (ctx : LocatorCtx) (maxCount : Nat) :
    ∀ (fuel height step : Nat) (acc : List Nat),
    (locatorExp ctx maxCount fuel height step acc).length ≤ acc.length + 1 ∨
    (locatorExp ctx maxCount fuel height step acc).length ≤ maxCount := by
  intro fuel
  induction fuel with
  | zero =>
    intro height step acc
    rcases e : ctx.atHeight height with _ | b
    · simp only [locatorExp, e]; left; omega
    · simp only [locatorExp, e]; left; simp
  | succ fuel ih =>
    intro height step acc
    rcases e : ctx.atHeight height with _ | b
    · simp only [locatorExp, e]; left; omega
    · simp only [locatorExp, e]
      by_cases hm : maxCount ≤ (acc ++ [b.hash]).length
      · rw [if_pos hm]; left; simp
      · rw [if_neg hm]
        by_cases hh : height ≤ step * 2
        · rw [if_pos hh]; left; simp
        · rw [if_neg hh]
          rcases ih (height - step * 2) (step * 2) (acc ++ [b.hash]) with h | h
          · right
            simp only [List.length_append, List.length_cons, List.length_nil] at h hm
            omega
          · right; exact h

/-- Claim C10 (amended): `get_block_locators` always ends with the genesis
hash, and its length is bounded by `max 12 maxCount`: the `max_count`
argument is respected by the exponential phase and the final genesis step,
but NOT by the initial linear phase (head plus up to ten parents plus one
exponential push), so for `maxCount` below 12 the list may exceed
`maxCount`. -/
theorem C10_locators_genesis_and_bound (ctx : LocatorCtx) (maxCount : Nat) :
    (get_block_locators ctx maxCount).getLast? = some ctx.genesisHash ∧
    (get_block_locators ctx maxCount).length ≤ max 12 maxCount := by
  rw [get_block_locators]
  have hlin := locatorLinear_length ctx (min 10 ctx.height) ctx.headHash [ctx.headHash]
  have hexp := locatorExp_length ctx maxCount ctx.height (ctx.height - (10 + 2)) 2
    (locatorLinear ctx (min 10 ctx.height) ctx.headHash [ctx.headHash])
  generalize hE : locatorExp ctx maxCount ctx.height (ctx.height - (10 + 2)) 2
    (locatorLinear ctx (min 10 ctx.height) ctx.headHash [ctx.headHash]) = E at hexp
  have hEbound : E.length ≤ 12 ∨ E.length ≤ maxCount := by
    rcases hexp with h | h
    · left
      have : (locatorLinear ctx (min 10 ctx.height) ctx.headHash [ctx.headHash]).length ≤ 11 := by
        have := hlin
        simp only [List.length_cons, List.length_nil] at this
        omega
      omega
    · right; exact h
  by_cases hg : E.getLast? = some ctx.genesisHash
  · rw [if_pos hg]
    refine ⟨hg, ?_⟩
    rcases hEbound with h | h
    · exact le_trans h (le_max_left _ _)
    · exact le_trans h (le_max_right _ _)
  · rw [if_neg hg]
    refine ⟨getLast?_append_single _ _, ?_⟩
    by_cases hm : maxCount ≤ E.length
    · rw [if_pos hm]
      have hlen : (E.dropLast ++ [ctx.genesisHash]).length ≤ E.length + 1 := by
        simp [List.length_dropLast]
      have hlen2 : (E.dropLast ++ [ctx.genesisHash]).length ≤ max 12 maxCount := by
        rcases hEbound with h | h
        · have : (E.dropLast ++ [ctx.genesisHash]).length ≤ 12 := by
            simp only [List.length_append, List.length_dropLast, List.length_cons,
              List.length_nil] at hlen ⊢
            rcases Nat.eq_zero_or_pos E.length with h0 | h0 <;> omega
          exact le_trans this (le_max_left _ _)
        · have : (E.dropLast ++ [ctx.genesisHash]).length ≤ maxCount ∨
              (E.dropLast ++ [ctx.genesisHash]).length ≤ 12 := by
            simp only [List.length_append, List.length_dropLast, List.length_cons,
              List.length_nil]
            rcases Nat.eq_zero_or_pos E.length with h0 | h0
            · right; omega
            · left; omega
          rcases this with h2 | h2
          · exact le_trans h2 (le_max_right _ _)
          · exact le_trans h2 (le_max_left _ _)
      exact hlen2
    · rw [if_neg hm]
      have : (E ++ [ctx.genesisHash]).length ≤ maxCount := by
        simp only [List.length_append, List.length_cons, List.length_nil]
        omega
      exact le_trans this (le_max_right _ _)

/-- Claim C10 counterexample: on a two-block chain with `max_count = 1`,
`get_block_locators` returns three hashes (head, genesis from the linear
phase, genesis again from the exponential phase), exceeding `max_count`. -/
theorem C10_counterexample :
    get_block_locators c10Ctx 1 = [101, 100, 100] ∧
    ¬ (get_block_locators c10Ctx 1).length ≤ 1 := by
  constructor
  · decide
  · decide

end Albatross
